import Mathlib

/-!
Shallow embedding of the `desktop-cleaner` repository.

The repository contains two parallel implementations of the same
organize/undo design:

* `desktop_cleaner.py` — `classify_file`, `iter_desktop_files`,
  `plan_moves`, `clean_desktop`, `write_log`, `undo_last_run`;
* `.kiro/src/` — `FileCategorizer.categorize`, `FileCleaner.organize`,
  `FileCleaner._move_file`, `UndoManager` (`record_move`, `undo_last`,
  `undo_all`, `_load_history`).

Paths are modelled as strings, file contents as natural numbers (so that
overwriting is observable), the filesystem as an association list of
files plus a list of directories, and the two ledgers (the JSON history
file of `UndoManager` and the `clean_*.log` files of `desktop_cleaner`)
as lists of `(source, destination)` pairs.  All definitions are
executable; string manipulation is done on character lists so that every
definition reduces inside the kernel.
-/

namespace DC

abbrev Path := String

/-- ASCII lowering of one character, as `str.lower()` acts on the ASCII
extensions used by both category tables. -/
def charLower (c : Char) : Char :=
  if 'A' ≤ c ∧ c ≤ 'Z' then Char.ofNat (c.toNat + 32) else c

/-- Models Python `str.lower()` on the (ASCII) extension strings. -/
def lowerStr (s : String) : String :=
  String.mk (s.toList.map charLower)

/-- Index of the last occurrence of `c`, if any (Python `str.rfind`). -/
def lastIdxOf (c : Char) : List Char → Option Nat
  | [] => none
  | x :: xs =>
    match lastIdxOf c xs with
    | some i => some (i + 1)
    | none => if x = c then some 0 else none

/-- Models Python `PurePath.suffix` on a file name: the part from the last
dot on, empty when the name has no dot, starts with its only dot, or ends
with the dot. -/
def pySuffix (name : String) : String :=
  let cs := name.toList
  match lastIdxOf '.' cs with
  | none => ""
  | some i => if 0 < i ∧ i + 1 < cs.length then String.mk (cs.drop i) else ""

/-- Models Python `PurePath.name`: the part after the last slash. -/
def baseName (p : Path) : String :=
  String.mk ((p.toList.reverse.takeWhile (fun c => ¬ c = '/')).reverse)

/-- Models Python `PurePath.parent` (up to the representation of `.`):
the part before the last slash. -/
def parentDir (p : Path) : Path :=
  String.mk (((p.toList.reverse.dropWhile (fun c => ¬ c = '/')).drop 1).reverse)

/-- Models the `/` operator on `pathlib` paths. -/
def pjoin (d n : Path) : Path := d ++ "/" ++ n

/-- Models Python `name.startswith "."` used for hidden files. -/
def startsWithDot (n : String) : Bool :=
  match n.toList with
  | [] => false
  | c :: _ => c = '.'

/-- The `CATEGORIES` table of `desktop_cleaner.py` (insertion order). -/
def CATEGORIES : List (String × List String) :=
  [("Images", [".png", ".jpg", ".jpeg", ".gif", ".bmp", ".svg", ".webp"]),
   ("Documents", [".pdf", ".doc", ".docx", ".xls", ".xlsx", ".ppt", ".pptx", ".txt", ".md"]),
   ("Code", [".py", ".ipynb", ".js", ".ts", ".java", ".go", ".c", ".cpp", ".rb",
             ".sh", ".yaml", ".yml", ".json", ".tf"]),
   ("Archives", [".zip", ".tar", ".gz", ".tgz", ".rar", ".7z"]),
   ("Media", [".mp3", ".wav", ".m4a", ".mp4", ".mkv", ".avi", ".mov"])]

/-- The `CATEGORY_MAPPINGS` table of `.kiro/src/categorizer.py`. -/
def CATEGORY_MAPPINGS : List (String × List String) :=
  [("Images", [".jpg", ".jpeg", ".png", ".gif", ".bmp", ".svg", ".webp"]),
   ("Documents", [".pdf", ".doc", ".docx", ".txt", ".odt", ".rtf"]),
   ("Videos", [".mp4", ".avi", ".mkv", ".mov", ".wmv", ".flv"]),
   ("Audio", [".mp3", ".wav", ".flac", ".aac", ".ogg", ".m4a"]),
   ("Archives", [".zip", ".rar", ".7z", ".tar", ".gz", ".bz2"]),
   ("Code", [".py", ".js", ".java", ".cpp", ".c", ".html", ".css", ".json"]),
   ("Spreadsheets", [".xlsx", ".xls", ".csv", ".ods"]),
   ("Others", [])]

/-- The shared lookup loop of both categorizers: first category whose
extension list contains `ext`, else `none`. -/
def catLookup : List (String × List String) → String → Option String
  | [], _ => none
  | ce :: rest, ext => if ext ∈ ce.2 then some ce.1 else catLookup rest ext

/-- Models `classify_file` of `desktop_cleaner.py`, on the file's name: lowercased
suffix looked up in `CATEGORIES`, falling back to `"Other"`. -/
def classify_file (name : String) : String :=
  (catLookup CATEGORIES (lowerStr (pySuffix name))).getD "Other"

/-- Models `FileCategorizer.categorize` of `.kiro/src/categorizer.py` with the
default mappings: lowercased suffix looked up in `CATEGORY_MAPPINGS`,
falling back to `"Others"`. -/
def categorize (name : String) : String :=
  (catLookup CATEGORY_MAPPINGS (lowerStr (pySuffix name))).getD "Others"

/-- A file map: association list from path to file content. -/
abbrev FileMap := List (Path × Nat)

/-- Content of the file at `p`, if present. -/
def fget : FileMap → Path → Option Nat
  | [], _ => none
  | (q, c) :: t, p => if q = p then some c else fget t p

/-- Remove the file at `p`. -/
def fdel : FileMap → Path → FileMap
  | [], _ => []
  | (q, c) :: t, p => if q = p then fdel t p else (q, c) :: fdel t p

/-- Write content `c` at path `p`, replacing any existing file. -/
def fset (fm : FileMap) (p : Path) (c : Nat) : FileMap :=
  (p, c) :: fdel fm p

/-- Models `os.rename`/`shutil.move` on a same-filesystem move: the file at
`src` is removed and its content appears at `dst`, silently replacing any
file already at `dst` (POSIX rename semantics). No-op when `src` is absent
(the real call would raise; every use below has `src` present). -/
def frename (fm : FileMap) (src dst : Path) : FileMap :=
  match fget fm src with
  | none => fm
  | some c => fset (fdel fm src) dst c

/-- Models `mkdir(exist_ok=True)`: idempotent directory creation. -/
def insertDir (dirs : List Path) (d : Path) : List Path :=
  if d ∈ dirs then dirs else dirs ++ [d]

/-- One direct child of a directory as seen by `Path.iterdir`. -/
structure Entry where
  name : String
  isDir : Bool
deriving DecidableEq

/-- Global state: the filesystem, the in-memory `UndoManager.history`, its
persisted JSON file, and the `clean_*.log` files of `desktop_cleaner.py`
in chronological order. -/
structure Sys where
  files : FileMap
  dirs : List Path
  history : List (Path × Path)
  persisted : List (Path × Path)
  logs : List (List (Path × Path))
deriving DecidableEq

/-- The path `p` as a direct child name of directory `d`, when it is one. -/
def childName (d p : Path) : Option String :=
  let dc := d.toList ++ ['/']
  let pc := p.toList
  if pc.take dc.length = dc then
    let rest := pc.drop dc.length
    if rest = [] ∨ '/' ∈ rest then none else some (String.mk rest)
  else none

/-- Models `Path.iterdir()` on directory `d`: the direct children drawn
from the files and directories of the state. -/
def listDir (s : Sys) (d : Path) : List Entry :=
  (s.files.filterMap (fun pc => (childName d pc.1).map (fun n => Entry.mk n false))) ++
  (s.dirs.filterMap (fun p => (childName d p).map (fun n => Entry.mk n true)))

/-- Models `iter_desktop_files` of `desktop_cleaner.py`: drop directories and
hidden (dot-named) entries. -/
def iter_desktop_files (items : List Entry) : List Entry :=
  items.filter (fun e => !e.isDir && !startsWithDot e.name)

/-- Models `plan_moves` of `desktop_cleaner.py`: eligible files paired with their
category target directory, no filesystem mutation. -/
def plan_moves (s : Sys) (desktop : Path) : List (Path × Path) :=
  (iter_desktop_files (listDir s desktop)).map
    (fun e => (pjoin desktop e.name, pjoin desktop (classify_file e.name)))

/-- One entry of the real-move loop of `clean_desktop`:
`target_dir.mkdir(exist_ok=True)` then `shutil.move(src, target_dir/src.name)`. -/
def cleanStep (acc : Sys) (m : Path × Path) : Sys :=
  let acc1 := { acc with dirs := insertDir acc.dirs m.2 }
  { acc1 with files := frename acc1.files m.1 (pjoin m.2 (baseName m.1)) }

/-- Models `clean_desktop` of `desktop_cleaner.py`.  Returns the final state, the
printed `(fileName, categoryFolder)` report, and the count.  With
`dry_run = true` it only reports; otherwise it performs every move and then
`write_log` appends one log file with all `(src, dest)` pairs. -/
def clean_desktop (s : Sys) (desktop : Path) (dry_run : Bool) :
    Sys × List (String × String) × Nat :=
  let moves := plan_moves s desktop
  if moves = [] then (s, [], 0)
  else if dry_run then
    (s, moves.map (fun m => (baseName m.1, baseName m.2)), moves.length)
  else
    let s1 := moves.foldl cleanStep s
    let s2 := { s1 with logs := s1.logs ++ [moves.map (fun m => (m.1, pjoin m.2 (baseName m.1)))] }
    (s2, moves.map (fun m => (baseName m.1, baseName m.2)), moves.length)

/-- Models `UndoManager.record_move`: append to the in-memory history and
immediately save it to the history file. -/
def record_move (s : Sys) (src dst : Path) : Sys :=
  { s with history := s.history ++ [(src, dst)],
           persisted := s.history ++ [(src, dst)] }

/-- Models `FileCleaner._move_file`: ensure the target directory, record the move
in the undo ledger (persisted), then rename the file. -/
def move_file (s : Sys) (src tdir : Path) : Sys :=
  let s1 := { s with dirs := insertDir s.dirs tdir }
  let dest := pjoin tdir (baseName src)
  let s2 := record_move s1 src dest
  { s2 with files := frename s2.files src dest }

/-- One entry of `FileCleaner.organize`: skip non-files, categorize, then
either report (dry run) or `_move_file`. -/
def orgStep (dir : Path) (dry_run : Bool) (acc : Sys × List (String × String)) (e : Entry) :
    Sys × List (String × String) :=
  if e.isDir then acc
  else if dry_run then (acc.1, acc.2 ++ [(e.name, categorize e.name)])
  else (move_file acc.1 (pjoin dir e.name) (pjoin dir (categorize e.name)), acc.2)

/-- Models `FileCleaner.organize` on a snapshot of the directory listing. -/
def organize (s : Sys) (dir : Path) (dry_run : Bool) : Sys × List (String × String) :=
  (listDir s dir).foldl (orgStep dir dry_run) (s, [])

/-- Executing a plan through `FileCleaner._move_file`, entry by entry in
plan order (the real-move loop of `organize`). -/
def execute : Sys → List (Path × Path) → Sys
  | s, [] => s
  | s, e :: rest => execute (move_file s e.1 e.2) rest

/-- The destination path a plan entry `(source, targetDirectory)` moves its
file to: `target_dir / src.name`. -/
def destOf (e : Path × Path) : Path := pjoin e.2 (baseName e.1)

/-- Models `UndoManager.undo_last`: pop the most recent record; if its destination
exists, rename it back and save; otherwise just save.  Returns the reported
success flag, the record that was attempted (the popped one), and the new
state.  On an empty history nothing is popped or saved. -/
def undo_last (s : Sys) : Bool × Option (Path × Path) × Sys :=
  match s.history.getLast? with
  | none => (false, none, s)
  | some r =>
    let hist := s.history.dropLast
    if (fget s.files r.2).isSome then
      (true, some r,
        { s with history := hist, persisted := hist,
                 files := frename s.files r.2 r.1 })
    else
      (false, some r, { s with history := hist, persisted := hist })

/-- The state transformer of one `undo_last` call. -/
def undoStep (s : Sys) : Sys := (undo_last s).2.2

/-- Models `UndoManager.undo_all`: `while self.history: self.undo_last()`. -/
def undo_all (s : Sys) : Sys :=
  if h : s.history = [] then s
  else undo_all (undo_last s).2.2
termination_by s.history.length
decreasing_by
  rcases List.eq_nil_or_concat s.history with h0 | ⟨l, a, hl⟩
  · exact absurd h0 h
  · have hh : (undo_last s).2.2.history = l := by
      simp [undo_last, hl, List.getLast?_concat, List.dropLast_concat]
      split <;> simp
    rw [hh, hl]
    simp

/-- One iteration of the restore loop of `undo_last_run` in
`desktop_cleaner.py`: if the recorded destination still exists, recreate the
source's parent directory and move the file back, else count it skipped.
The fourth component observes the records in the order the loop visits
them. -/
def undoRunStep (acc : Sys × Nat × Nat × List (Path × Path)) (m : Path × Path) :
    Sys × Nat × Nat × List (Path × Path) :=
  if (fget acc.1.files m.2).isSome then
    ({ acc.1 with dirs := insertDir acc.1.dirs (parentDir m.1),
                  files := frename acc.1.files m.2 m.1 },
     acc.2.1 + 1, acc.2.2.1, acc.2.2.2 ++ [m])
  else
    (acc.1, acc.2.1, acc.2.2.1 + 1, acc.2.2.2 ++ [m])

/-- Models `undo_last_run` of `desktop_cleaner.py`, given the `(src, dest)` pairs
parsed from the most recent log file (in file order, which is the order
`write_log` produced them).  Returns the final state, the restored and
skipped counts, and the visit order.  The log file itself is never
rewritten or deleted. -/
def undo_last_run (s : Sys) (moves : List (Path × Path)) :
    Sys × Nat × Nat × List (Path × Path) :=
  moves.foldl undoRunStep (s, 0, 0, [])

/-- A primitive externally visible effect of the mutator: directory
creation, a durable ledger write with the full ledger contents written, or
a filesystem move. -/
inductive Ev where
  | mkdir (d : Path)
  | persistLedger (l : List (Path × Path))
  | rename (src dst : Path)
deriving DecidableEq

/-- The effect trace of one `FileCleaner._move_file` call, starting from
in-memory ledger `ledger`: mkdir, then `record_move` persists the extended
ledger, then the rename. -/
def move_file_events (ledger : List (Path × Path)) (src tdir : Path) : List Ev :=
  [Ev.mkdir tdir,
   Ev.persistLedger (ledger ++ [(src, pjoin tdir (baseName src))]),
   Ev.rename src (pjoin tdir (baseName src))]

/-- The effect trace of the real-move loop of `FileCleaner.organize` over
the eligible `(source, targetDirectory)` entries. -/
def organizeTrace (ledger : List (Path × Path)) : List (Path × Path) → List Ev
  | [] => []
  | e :: rest =>
    move_file_events ledger e.1 e.2 ++
    organizeTrace (ledger ++ [(e.1, pjoin e.2 (baseName e.1))]) rest

/-- The effect trace of the real branch of `clean_desktop`: every move is
performed first, and only afterwards does `write_log` persist the whole
list of `(src, dest)` pairs (nothing at all when the plan is empty). -/
def cleanDesktopTrace (moves : List (Path × Path)) : List Ev :=
  if moves = [] then []
  else
    ((moves.map (fun m => [Ev.mkdir m.2, Ev.rename m.1 (pjoin m.2 (baseName m.1))])).flatten) ++
    [Ev.persistLedger (moves.map (fun m => (m.1, pjoin m.2 (baseName m.1))))]

/-- Does some already persisted ledger contain the record `(s, d)`? -/
def recordedIn (s d : Path) (ls : List (List (Path × Path))) : Bool :=
  ls.any (fun l => decide ((s, d) ∈ l))

/-- Durability check over an effect trace: every rename must be preceded by
a durable ledger write containing that rename's record.  `P` accumulates
the ledger contents persisted so far. -/
def durableChk (P : List (List (Path × Path))) : List Ev → Bool
  | [] => true
  | Ev.mkdir _ :: rest => durableChk P rest
  | Ev.persistLedger l :: rest => durableChk (l :: P) rest
  | Ev.rename s d :: rest => recordedIn s d P && durableChk P rest

/-- Severity of a log message emitted by the embedded code. -/
inductive LogLevel where
  | info
  | warning
  | error
deriving DecidableEq

/-- Models `UndoManager._load_history`.  The input models the persisted history
file: `none` when the file does not exist, `some none` when it exists but
reading or parsing it raises, `some (some data)` when it parses.  Returns
the loaded history together with the log messages emitted; no input makes
it raise. -/
def load_history : Option (Option (List (Path × Path))) → List (Path × Path) × List LogLevel
  | none => ([], [])
  | some none => ([], [LogLevel.error])
  | some (some data) => (data, [LogLevel.info])

/-! ## File map lemmas -/

theorem fget_fdel (fm : FileMap) (p q : Path) :
    fget (fdel fm p) q = if p = q then none else fget fm q := by
  induction fm with
  | nil => simp [fdel, fget]
  | cons hd t ih =>
    simp only [fdel, fget]
    by_cases h1 : hd.1 = p <;> by_cases h2 : p = q <;>
      simp [h1, h2, fget, ih] <;> simp_all [fget, ih]

theorem fget_fset (fm : FileMap) (p : Path) (c : Nat) (q : Path) :
    fget (fset fm p c) q = if p = q then some c else fget fm q := by
  simp only [fset, fget, fget_fdel]
  split <;> simp [*]

theorem frename_get (fm : FileMap) (src dst : Path) (c : Nat)
    (h : fget fm src = some c) (q : Path) :
    fget (frename fm src dst) q =
      if dst = q then some c else if src = q then none else fget fm q := by
  simp [frename, h, fget_fset, fget_fdel]

/-! ## Categorizer lemmas -/

theorem catLookup_mem (table : List (String × List String)) (ext cat : String)
    (exts : List String)
    (hdisj : table.Pairwise (fun a b => ∀ x ∈ a.2, x ∉ b.2))
    (hmem : (cat, exts) ∈ table) (hext : ext ∈ exts) :
    catLookup table ext = some cat := by
  induction table with
  | nil => simp at hmem
  | cons hd t ih =>
    rw [List.pairwise_cons] at hdisj
    rcases List.mem_cons.mp hmem with heq | ht
    · simp [catLookup, ← heq, hext]
    · have hnot : ext ∉ hd.2 := fun hin => hdisj.1 (cat, exts) ht ext hin hext
      simp [catLookup, hnot, ih hdisj.2 ht]

theorem catLookup_none (table : List (String × List String)) (ext : String)
    (hall : ∀ ce ∈ table, ext ∉ ce.2) :
    catLookup table ext = none := by
  induction table with
  | nil => rfl
  | cons hd t ih =>
    simp [catLookup, hall hd (List.mem_cons_self hd t),
      ih (fun ce hce => hall ce (List.mem_cons_of_mem hd hce))]

theorem CATEGORIES_disjoint :
    CATEGORIES.Pairwise (fun a b => ∀ x ∈ a.2, x ∉ b.2) := by decide

theorem CATEGORY_MAPPINGS_disjoint :
    CATEGORY_MAPPINGS.Pairwise (fun a b => ∀ x ∈ a.2, x ∉ b.2) := by decide

/-- Claim C4: both categorizers are total and deterministic functions of
the file name, case-insensitive on the extension: a (lowercased) suffix
owned by a table category yields that category, a suffix owned by none
yields the fallback (`"Other"` for `classify_file`, `"Others"` for
`categorize`), and two names with the same lowercased suffix always get
the same category. -/
theorem C4_categorizer_total (name : String) :
    (∀ cat exts, (cat, exts) ∈ CATEGORIES → lowerStr (pySuffix name) ∈ exts →
      classify_file name = cat) ∧
    ((∀ ce ∈ CATEGORIES, lowerStr (pySuffix name) ∉ ce.2) →
      classify_file name = "Other") ∧
    (∀ cat exts, (cat, exts) ∈ CATEGORY_MAPPINGS → lowerStr (pySuffix name) ∈ exts →
      categorize name = cat) ∧
    ((∀ ce ∈ CATEGORY_MAPPINGS, lowerStr (pySuffix name) ∉ ce.2) →
      categorize name = "Others") ∧
    (∀ other, lowerStr (pySuffix name) = lowerStr (pySuffix other) →
      classify_file name = classify_file other ∧ categorize name = categorize other) := by
  refine ⟨?_, ?_, ?_, ?_, ?_⟩
  · intro cat exts hm he
    unfold classify_file
    rw [catLookup_mem CATEGORIES _ cat exts CATEGORIES_disjoint hm he]
    rfl
  · intro h
    unfold classify_file
    rw [catLookup_none _ _ (fun ce hce => h ce hce)]
    rfl
  · intro cat exts hm he
    unfold categorize
    rw [catLookup_mem CATEGORY_MAPPINGS _ cat exts CATEGORY_MAPPINGS_disjoint hm he]
    rfl
  · intro h
    unfold categorize
    rw [catLookup_none _ _ (fun ce hce => h ce hce)]
    rfl
  · intro other h
    unfold classify_file categorize
    rw [h]
    exact ⟨rfl, rfl⟩

/-- Witness for C4 at concrete inputs: an uppercase known extension and an
unknown extension. -/
theorem C4_categorizer_total_witness :
    classify_file "photo.JPG" = "Images" ∧ categorize "notes.xyz" = "Others" := by
  constructor
  · exact (C4_categorizer_total "photo.JPG").1 "Images"
      [".png", ".jpg", ".jpeg", ".gif", ".bmp", ".svg", ".webp"] (by decide) (by decide)
  · exact (C4_categorizer_total "notes.xyz").2.2.2.1 (by decide)

/-! ## Planner exclusion (C5) -/

/-- Claim C5 (amended): in `desktop_cleaner.py` the plan only ever
contains direct children of the snapshot that are neither directories nor
dot-named; `FileCleaner.organize`, however, only excludes non-files, so a
hidden regular file is organized and reported (see the counterexample). -/
theorem C5_planner_exclusion (items : List Entry) :
    ∀ e ∈ iter_desktop_files items,
      e ∈ items ∧ e.isDir = false ∧ startsWithDot e.name = false := by
  intro e he
  rw [iter_desktop_files, List.mem_filter] at he
  have h2 := he.2
  simp only [Bool.and_eq_true, Bool.not_eq_true'] at h2
  exact ⟨he.1, h2.1, h2.2⟩

/-- Witness for C5 at a concrete snapshot. -/
theorem C5_planner_exclusion_witness :
    (Entry.mk "a.txt" false) ∈ [Entry.mk "a.txt" false] ∧
    (Entry.mk "a.txt" false).isDir = false ∧
    startsWithDot (Entry.mk "a.txt" false).name = false :=
  C5_planner_exclusion [Entry.mk "a.txt" false] (Entry.mk "a.txt" false) (by decide)

/-- Counterexample to C5 as stated: a hidden regular file `.hidden` is a
plan input of `FileCleaner.organize`, and its dry run reports it (and the
real run would move it) even though its name begins with the hidden-file
marker. -/
theorem C5_counterexample :
    (organize (Sys.mk [("/d/.hidden", 1)] ["/d"] [] [] []) "/d" true).2 =
      [(".hidden", "Others")] ∧ startsWithDot ".hidden" = true := by decide

/-! ## Dry-run frame property (C6) -/

/-- Claim C6: with the dry-run flag set, both `clean_desktop` and
`FileCleaner.organize` leave the whole state untouched — no files, no
directories, no undo history, no persisted ledger, no log files — and
running either again reproduces exactly the same report. -/
theorem C6_dry_run_frame (s : Sys) (d : Path) :
    (clean_desktop s d true).1 = s ∧
    (organize s d true).1 = s ∧
    clean_desktop (clean_desktop s d true).1 d true = clean_desktop s d true ∧
    organize (organize s d true).1 d true = organize s d true := by
  have h1 : (clean_desktop s d true).1 = s := by
    by_cases hm : plan_moves s d = [] <;> simp [clean_desktop, hm]
  have horg : ∀ (items : List Entry) (acc : Sys × List (String × String)),
      (items.foldl (orgStep d true) acc).1 = acc.1 := by
    intro items
    induction items with
    | nil => intro acc; rfl
    | cons e rest ih =>
      intro acc
      rw [List.foldl_cons, ih]
      unfold orgStep
      split <;> simp
  have h2 : (organize s d true).1 = s := horg (listDir s d) (s, [])
  exact ⟨h1, h2, by rw [h1], by rw [h2]⟩

/-! ## Ledger load recovery (C9) -/

/-- Claim C9 (amended): `_load_history` never raises out of startup: a
missing history file yields an empty ledger and logs nothing, an
unparseable one yields an empty ledger and logs at error (not warning)
severity, and a parseable one loads exactly its records. -/
theorem C9_load_recovery :
    load_history none = ([], []) ∧
    load_history (some none) = ([], [LogLevel.error]) ∧
    (∀ data, load_history (some (some data)) = (data, [LogLevel.info])) :=
  ⟨rfl, rfl, fun _ => rfl⟩

/-- Counterexample to C9 as stated: the corrupt-file path logs at error
severity, not warning, and the missing-file path logs nothing at all. -/
theorem C9_counterexample :
    (load_history (some none)).2 = [LogLevel.error] ∧
    ¬ LogLevel.error = LogLevel.warning ∧
    (load_history none).2 = [] := by decide

/-! ## Durability ordering (C2) -/

theorem durableChk_organizeTrace (entries : List (Path × Path)) :
    ∀ (ledger : List (Path × Path)) (P : List (List (Path × Path))),
      durableChk P (organizeTrace ledger entries) = true := by
  induction entries with
  | nil => intro ledger P; rfl
  | cons e rest ih =>
    intro ledger P
    simp [organizeTrace, move_file_events, durableChk, recordedIn, ih]

/-- Claim C2 (amended): along the `FileCleaner` mutator every rename is
preceded by a durable ledger write containing that move's record —
`_move_file` appends and saves the history before renaming — so no
reachable state has a completed move without its durable record.  (The
`clean_desktop` mutator of `desktop_cleaner.py` violates this: it writes
its log only after all moves; see the counterexample.) -/
theorem C2_durable_before_move (entries ledger : List (Path × Path)) :
    durableChk [] (organizeTrace ledger entries) = true :=
  durableChk_organizeTrace entries ledger []

/-- Counterexample to C2 as stated: in the `clean_desktop` trace for a
one-entry plan the rename happens before any ledger write, so a completed
move exists with no durable record. -/
theorem C2_counterexample :
    durableChk [] (cleanDesktopTrace [("/d/a.txt", "/d/Documents")]) = false := by decide

/-! ## Collision policy (C8) -/

/-- Claim C8 (amended): a plan entry whose destination is already occupied
is not failed and not skipped: the rename silently overwrites whatever is
at the destination (the destination ends up holding the moved file's
content and the source disappears), no `CollisionError` exists anywhere in
the code, and execution continues with the remaining entries. -/
theorem C8_collision_overwrite (s : Sys) (src tdir : Path)
    (hsrc : (fget s.files src).isSome = true)
    (hne : ¬ pjoin tdir (baseName src) = src) :
    fget (move_file s src tdir).files (pjoin tdir (baseName src)) = fget s.files src ∧
    fget (move_file s src tdir).files src = none ∧
    (∀ rest, execute s ((src, tdir) :: rest) = execute (move_file s src tdir) rest) := by
  obtain ⟨c, hc⟩ := Option.isSome_iff_exists.mp hsrc
  have hfiles : (move_file s src tdir).files =
      frename s.files src (pjoin tdir (baseName src)) := rfl
  refine ⟨?_, ?_, fun rest => rfl⟩
  · rw [hfiles, frename_get s.files src _ c hc]
    simp [hc]
  · rw [hfiles, frename_get s.files src _ c hc]
    simp [hne]

/-- Witness for C8: moving `/d/a.xyz` into `/d/Other` lands on the occupied
path `/d/Other/a.xyz`. -/
theorem C8_collision_overwrite_witness :
    fget (move_file (Sys.mk [("/d/a.xyz", 1), ("/d/Other/a.xyz", 2)] ["/d", "/d/Other"] [] [] [])
        "/d/a.xyz" "/d/Other").files "/d/Other/a.xyz" = some 1 ∧
    fget (move_file (Sys.mk [("/d/a.xyz", 1), ("/d/Other/a.xyz", 2)] ["/d", "/d/Other"] [] [] [])
        "/d/a.xyz" "/d/Other").files "/d/a.xyz" = none := by
  have h := C8_collision_overwrite
    (Sys.mk [("/d/a.xyz", 1), ("/d/Other/a.xyz", 2)] ["/d", "/d/Other"] [] [] [])
    "/d/a.xyz" "/d/Other" (by decide) (by decide)
  have e1 : pjoin "/d/Other" (baseName "/d/a.xyz") = "/d/Other/a.xyz" := by decide
  constructor
  · have h1 := h.1
    rw [e1] at h1
    rw [h1]
    decide
  · exact h.2.1

/-- Counterexample to C8 as stated: running the real `clean_desktop` on a
desktop whose `Other/a.xyz` already exists (content `2`) silently replaces
it with the moved file's content `1` instead of failing the move. -/
theorem C8_counterexample :
    fget (clean_desktop (Sys.mk [("/d/a.xyz", 1), ("/d/Other/a.xyz", 2)] ["/d", "/d/Other"] [] [] [])
        "/d" false).1.files "/d/Other/a.xyz" = some 1 ∧
    fget (Sys.mk [("/d/a.xyz", 1), ("/d/Other/a.xyz", 2)] ["/d", "/d/Other"] [] [] []).files
        "/d/Other/a.xyz" = some 2 ∧
    fget (clean_desktop (Sys.mk [("/d/a.xyz", 1), ("/d/Other/a.xyz", 2)] ["/d", "/d/Other"] [] [] [])
        "/d" false).1.files "/d/a.xyz" = none := by decide

/-! ## Undo order (C3) -/

theorem undoRun_attempts (moves : List (Path × Path)) :
    ∀ acc : Sys × Nat × Nat × List (Path × Path),
      (moves.foldl undoRunStep acc).2.2.2 = acc.2.2.2 ++ moves := by
  induction moves with
  | nil => intro acc; simp
  | cons m rest ih =>
    intro acc
    rw [List.foldl_cons, ih]
    have hstep : (undoRunStep acc m).2.2.2 = acc.2.2.2 ++ [m] := by
      unfold undoRunStep
      split <;> rfl
    simp [hstep]

/-- Claim C3 (amended): `UndoManager.undo_last` always attempts the record
appended last (list `pop` takes the final element), so its undo is
most-recent-first; `undo_last_run` of `desktop_cleaner.py`, however, visits
the parsed log records in file order, which is the order `write_log`
appended them, i.e. oldest-first (see the counterexample). -/
theorem C3_undo_order :
    (∀ (s : Sys) (l : List (Path × Path)) (r : Path × Path),
      s.history = l ++ [r] → (undo_last s).2.1 = some r) ∧
    (∀ (s : Sys) (moves : List (Path × Path)),
      (undo_last_run s moves).2.2.2 = moves) := by
  constructor
  · intro s l r h
    simp only [undo_last, h, List.getLast?_concat]
    split <;> rfl
  · intro s moves
    simpa using undoRun_attempts moves (s, 0, 0, [])

/-- Witness for C3 at a two-record ledger and a two-record log. -/
theorem C3_undo_order_witness :
    (undo_last (Sys.mk [] [] [("/a", "/x"), ("/b", "/y")] [("/a", "/x"), ("/b", "/y")] [])).2.1 =
      some ("/b", "/y") ∧
    (undo_last_run (Sys.mk [] [] [] [] []) [("/a", "/x"), ("/b", "/y")]).2.2.2 =
      [("/a", "/x"), ("/b", "/y")] :=
  ⟨C3_undo_order.1 (Sys.mk [] [] [("/a", "/x"), ("/b", "/y")] [("/a", "/x"), ("/b", "/y")] [])
      [("/a", "/x")] ("/b", "/y") rfl,
   C3_undo_order.2 (Sys.mk [] [] [] [] []) [("/a", "/x"), ("/b", "/y")]⟩

/-- Counterexample to C3 as stated: with the two-record log
`[r1, r2]` (`r2` appended last by `write_log`), `undo_last_run` attempts
`r1` first, not `r2`. -/
theorem C3_counterexample :
    (undo_last_run (Sys.mk [] [] [] [] []) [("/a", "/x"), ("/b", "/y")]).2.2.2.head? =
      some ("/a", "/x") ∧
    ¬ (("/a", "/x") : Path × Path) = ("/b", "/y") := by decide

/-! ## Stale undo (C7) -/

/-- Claim C7: when the most recent record's destination no longer exists,
`undo_last` reports `False`, still removes that record from the history,
persists the shortened history, leaves the filesystem untouched, and (being
a total function in this model, matching the exception-free `else` branch
of the source) raises nothing; a one-record ledger becomes empty. -/
theorem C7_stale_undo (s : Sys) (l : List (Path × Path)) (r : Path × Path)
    (hh : s.history = l ++ [r]) (hf : fget s.files r.2 = none) :
    (undo_last s).1 = false ∧
    (undo_last s).2.2.history = l ∧
    (undo_last s).2.2.persisted = l ∧
    (undo_last s).2.2.files = s.files := by
  simp [undo_last, hh, List.getLast?_concat, hf, List.dropLast_concat]

/-- Witness for C7: a one-record ledger whose destination is missing ends
up empty, with `restored = false`. -/
theorem C7_stale_undo_witness :
    (undo_last (Sys.mk [] [] [("/d/a.txt", "/d/Documents/a.txt")]
        [("/d/a.txt", "/d/Documents/a.txt")] [])).1 = false ∧
    (undo_last (Sys.mk [] [] [("/d/a.txt", "/d/Documents/a.txt")]
        [("/d/a.txt", "/d/Documents/a.txt")] [])).2.2.history = [] ∧
    (undo_last (Sys.mk [] [] [("/d/a.txt", "/d/Documents/a.txt")]
        [("/d/a.txt", "/d/Documents/a.txt")] [])).2.2.persisted = [] := by
  have h := C7_stale_undo
    (Sys.mk [] [] [("/d/a.txt", "/d/Documents/a.txt")] [("/d/a.txt", "/d/Documents/a.txt")] [])
    [] ("/d/a.txt", "/d/Documents/a.txt") rfl rfl
  exact ⟨h.1, h.2.1, h.2.2.1⟩

/-! ## Termination of undo_all (C10) -/

theorem undo_last_shrinks (s : Sys) (h : ¬ s.history = []) :
    (undo_last s).2.2.history = s.history.dropLast ∧
    (undo_last s).2.2.persisted = s.history.dropLast := by
  rcases List.eq_nil_or_concat s.history with h0 | ⟨l, a, hl⟩
  · exact absurd h0 h
  · constructor <;>
      simp [undo_last, hl, List.getLast?_concat, List.dropLast_concat] <;>
      split <;> simp

theorem undo_all_history_aux :
    ∀ (n : Nat) (s : Sys), s.history.length = n → (undo_all s).history = [] := by
  intro n
  induction n with
  | zero =>
    intro s hlen
    have h0 : s.history = [] := List.eq_nil_of_length_eq_zero hlen
    unfold undo_all
    rw [dif_pos h0, h0]
  | succ n ih =>
    intro s hlen
    have h0 : ¬ s.history = [] := by
      intro hh
      rw [hh] at hlen
      simp at hlen
    unfold undo_all
    rw [dif_neg h0]
    apply ih
    rw [(undo_last_shrinks s h0).1, List.length_dropLast, hlen]
    rfl

theorem undo_all_history (s : Sys) : (undo_all s).history = [] :=
  undo_all_history_aux s.history.length s rfl

/-- Claim C10: each `undo_last` on a non-empty history removes exactly the
popped (last) record whether or not the restore succeeds, so the history
length strictly decreases by one, and `undo_all` terminates (it is a total
function of the state) with an empty ledger. -/
theorem C10_undo_all_terminates (s : Sys) (h : ¬ s.history = []) :
    (undo_last s).2.2.history = s.history.dropLast ∧
    (undo_last s).2.2.history.length + 1 = s.history.length ∧
    (undo_all s).history = [] := by
  refine ⟨(undo_last_shrinks s h).1, ?_, undo_all_history s⟩
  rw [(undo_last_shrinks s h).1, List.length_dropLast]
  exact Nat.succ_pred_eq_of_pos (List.length_pos.mpr h)

/-- Witness for C10 at a one-record ledger. -/
theorem C10_undo_all_terminates_witness :
    (undo_last (Sys.mk [] [] [("/a", "/b")] [("/a", "/b")] [])).2.2.history = [] ∧
    (undo_last (Sys.mk [] [] [("/a", "/b")] [("/a", "/b")] [])).2.2.history.length + 1 = 1 ∧
    (undo_all (Sys.mk [] [] [("/a", "/b")] [("/a", "/b")] [])).history = [] := by
  have h := C10_undo_all_terminates (Sys.mk [] [] [("/a", "/b")] [("/a", "/b")] []) (by decide)
  exact ⟨h.1, h.2.1, h.2.2⟩

/-! ## Round trip (C1) -/

theorem exec_history (plan : List (Path × Path)) :
    ∀ s : Sys, (execute s plan).history =
      s.history ++ plan.map (fun e => (e.1, destOf e)) := by
  induction plan with
  | nil => intro s; simp [execute]
  | cons e rest ih =>
    intro s
    rw [show execute s (e :: rest) = execute (move_file s e.1 e.2) rest from rfl, ih]
    rw [show (move_file s e.1 e.2).history = s.history ++ [(e.1, destOf e)] from rfl]
    simp

theorem undo_all_eq_iterate_aux :
    ∀ (n : Nat) (s : Sys), s.history.length = n → undo_all s = undoStep^[n] s := by
  intro n
  induction n with
  | zero =>
    intro s hlen
    have h0 : s.history = [] := List.eq_nil_of_length_eq_zero hlen
    unfold undo_all
    rw [dif_pos h0]
    rfl
  | succ n ih =>
    intro s hlen
    have h0 : ¬ s.history = [] := by
      intro hh
      rw [hh] at hlen
      simp at hlen
    unfold undo_all
    rw [dif_neg h0]
    have hlen2 : (undo_last s).2.2.history.length = n := by
      rw [(undo_last_shrinks s h0).1, List.length_dropLast, hlen]
      rfl
    rw [ih (undo_last s).2.2 hlen2, Function.iterate_succ_apply]
    rfl

theorem undo_all_eq_iterate (s : Sys) : undo_all s = undoStep^[s.history.length] s :=
  undo_all_eq_iterate_aux s.history.length s rfl

theorem exec_undo_cancels (plan : List (Path × Path)) :
    ∀ s : Sys,
      (∀ e ∈ plan, (fget s.files e.1).isSome = true) →
      (∀ e ∈ plan, fget s.files (destOf e) = none) →
      (plan.map Prod.fst).Nodup →
      (plan.map destOf).Nodup →
      s.persisted = s.history →
      (∀ p, fget (undoStep^[plan.length] (execute s plan)).files p = fget s.files p) ∧
      (undoStep^[plan.length] (execute s plan)).history = s.history ∧
      (undoStep^[plan.length] (execute s plan)).persisted = s.history := by
  induction plan with
  | nil =>
    intro s h1 h2 h3 h4 h5
    exact ⟨fun p => rfl, rfl, h5⟩
  | cons e rest ih =>
    intro s h1 h2 h3 h4 h5
    obtain ⟨c, hc⟩ := Option.isSome_iff_exists.mp (h1 e (List.mem_cons_self e rest))
    have hdnone : fget s.files (destOf e) = none := h2 e (List.mem_cons_self e rest)
    have key : ∀ q, fget (move_file s e.1 e.2).files q =
        if destOf e = q then some c else if e.1 = q then none else fget s.files q := by
      intro q
      rw [show (move_file s e.1 e.2).files = frename s.files e.1 (destOf e) from rfl]
      exact frename_get s.files e.1 (destOf e) c hc q
    rw [List.map_cons, List.nodup_cons] at h3 h4
    have h1' : ∀ e2 ∈ rest, (fget (move_file s e.1 e.2).files e2.1).isSome = true := by
      intro e2 he2
      have hmem := h1 e2 (List.mem_cons_of_mem e he2)
      have hdne : ¬ destOf e = e2.1 := by
        intro hq
        rw [hq] at hdnone
        rw [hdnone] at hmem
        simp at hmem
      have hsne : ¬ e.1 = e2.1 := by
        intro hq
        exact h3.1 (by rw [hq]; exact List.mem_map_of_mem Prod.fst he2)
      rw [key, if_neg hdne, if_neg hsne]
      exact hmem
    have h2' : ∀ e2 ∈ rest, fget (move_file s e.1 e.2).files (destOf e2) = none := by
      intro e2 he2
      have hd2 := h2 e2 (List.mem_cons_of_mem e he2)
      have hdd : ¬ destOf e = destOf e2 := by
        intro hq
        exact h4.1 (by rw [hq]; exact List.mem_map_of_mem destOf he2)
      have hsd : ¬ e.1 = destOf e2 := by
        intro hq
        rw [← hq, hc] at hd2
        simp at hd2
      rw [key, if_neg hdd, if_neg hsd]
      exact hd2
    obtain ⟨hfT, hhT, hpT⟩ := ih (move_file s e.1 e.2) h1' h2' h3.2 h4.2 rfl
    have hiter : undoStep^[(e :: rest).length] (execute s (e :: rest)) =
        undoStep (undoStep^[rest.length] (execute (move_file s e.1 e.2) rest)) := by
      rw [show execute s (e :: rest) = execute (move_file s e.1 e.2) rest from rfl,
        show (e :: rest).length = rest.length + 1 from rfl,
        Function.iterate_succ_apply']
    rw [hiter]
    set T := undoStep^[rest.length] (execute (move_file s e.1 e.2) rest) with hT
    have hhist : T.history = s.history ++ [(e.1, destOf e)] := hhT
    have hTd : fget T.files (destOf e) = some c := by
      rw [hfT (destOf e), key, if_pos rfl]
    have hgl : T.history.getLast? = some (e.1, destOf e) := by
      rw [hhist]
      exact List.getLast?_concat _
    have hundo : undoStep T =
        { T with
          history := s.history, persisted := s.history,
          files := frename T.files (destOf e) e.1 } := by
      unfold undoStep undo_last
      rw [hgl]
      simp [hTd, hhist, List.dropLast_concat]
    rw [hundo]
    refine ⟨?_, rfl, rfl⟩
    intro p
    show fget (frename T.files (destOf e) e.1) p = fget s.files p
    rw [frename_get T.files (destOf e) e.1 c hTd p]
    by_cases hp1 : e.1 = p
    · rw [if_pos hp1, ← hp1, hc]
    · rw [if_neg hp1]
      by_cases hpd : destOf e = p
      · rw [if_pos hpd, ← hpd, hdnone]
      · rw [if_neg hpd, hfT p, key, if_neg hpd, if_neg hp1]

/-- Claim C1: executing a collision-free plan through the
`FileCleaner._move_file` mutator and then running `UndoManager.undo_all`
restores every moved file to its original path (the file map is
extensionally the initial one) and leaves both the in-memory and the
persisted ledger empty.  Collision-free means: every source exists, no
destination exists yet, and sources and destinations are each pairwise
distinct. -/
theorem C1_round_trip (plan : List (Path × Path)) (s : Sys)
    (h1 : ∀ e ∈ plan, (fget s.files e.1).isSome = true)
    (h2 : ∀ e ∈ plan, fget s.files (destOf e) = none)
    (h3 : (plan.map Prod.fst).Nodup)
    (h4 : (plan.map destOf).Nodup)
    (h5 : s.history = [])
    (h6 : s.persisted = []) :
    (∀ p, fget (undo_all (execute s plan)).files p = fget s.files p) ∧
    (undo_all (execute s plan)).history = [] ∧
    (undo_all (execute s plan)).persisted = [] := by
  have hlen : (execute s plan).history.length = plan.length := by
    rw [exec_history plan s, h5]
    simp
  have hiter : undo_all (execute s plan) = undoStep^[plan.length] (execute s plan) := by
    rw [undo_all_eq_iterate, hlen]
  obtain ⟨hf, hh, hp⟩ := exec_undo_cancels plan s h1 h2 h3 h4 (by rw [h5, h6])
  rw [hiter]
  exact ⟨hf, by rw [hh, h5], by rw [hp, h5]⟩

/-- Witness for C1: one file moved into `Documents` and undone. -/
theorem C1_round_trip_witness :
    fget (undo_all (execute (Sys.mk [("/d/a.txt", 7)] ["/d"] [] [] [])
        [("/d/a.txt", "/d/Documents")])).files "/d/a.txt" = some 7 ∧
    (undo_all (execute (Sys.mk [("/d/a.txt", 7)] ["/d"] [] [] [])
        [("/d/a.txt", "/d/Documents")])).history = [] := by
  have h := C1_round_trip [("/d/a.txt", "/d/Documents")]
    (Sys.mk [("/d/a.txt", 7)] ["/d"] [] [] [])
    (by decide) (by decide) (by decide) (by decide) rfl rfl
  refine ⟨?_, h.2.1⟩
  rw [h.1 "/d/a.txt"]
  decide

end DC
